import Mathlib

/-!
# Verification of the Startup-SBOM analysis engine

Shallow embedding of the package/service analysis engine of the
Startup-SBOM repository, together with proofs about the claims of its
specification.  Python string processing is modelled over `List Char`
(so that everything evaluates in the kernel); filesystem interaction is
modelled by passing directory contents and existence sets explicitly.
-/

/- ## Python-style string primitives -/

/-- Substring containment, the semantics of Python's `needle in hay`. -/
def containsSeq (hay needle : List Char) : Bool :=
  match hay with
  | [] => needle.isEmpty
  | _ :: t => needle.isPrefixOf hay || containsSeq t needle

/-- Split a character list at every occurrence of `sep`
(the semantics of Python's `str.split(sep)` for a single-character
separator, and also of line splitting on a newline character). -/
def splitChar (sep : Char) (s : List Char) : List (List Char) :=
  match s with
  | [] => [[]]
  | c :: t =>
    let rest := splitChar sep t
    if c = sep then [] :: rest
    else
      match rest with
      | [] => [[c]]
      | h :: r => (c :: h) :: r

/-- Python `str.splitlines()` restricted to `\n` terminators: split on
newlines and drop the trailing empty piece produced by a final newline. -/
def pySplitlines (s : List Char) : List (List Char) :=
  let parts := splitChar '\n' s
  if parts.getLast? = some [] then parts.dropLast else parts

/-- Python `str.strip()`: remove leading and trailing whitespace. -/
def trimWs (s : List Char) : List Char :=
  ((s.dropWhile Char.isWhitespace).reverse.dropWhile Char.isWhitespace).reverse

/-- Whitespace tokenizer, the semantics of Python's `str.split()` with no
argument: maximal runs of non-whitespace characters.  `acc` holds the
characters of the current token in reverse. -/
def wordsAux : List Char → List Char → List (List Char)
  | [], acc => if acc = [] then [] else [acc.reverse]
  | c :: t, acc =>
    if c.isWhitespace then
      if acc = [] then wordsAux t [] else acc.reverse :: wordsAux t []
    else wordsAux t (c :: acc)

/-- Python `str.split()` with no argument. -/
def pyWords (s : List Char) : List (List Char) := wordsAux s []

/-- Python `str.lstrip('/')`: drop all leading slash characters. -/
def lstripSlash (s : List Char) : List Char := s.dropWhile (fun c => c = '/')

/-- Join path components with a separator character. -/
def joinWith (sep : Char) : List (List Char) → List Char
  | [] => []
  | [x] => x
  | x :: xs => x ++ sep :: joinWith sep xs

/-- Non-empty slash-separated components of a path. -/
def splitComponents (s : List Char) : List (List Char) :=
  (splitChar '/' s).filter (fun c => !c.isEmpty)

/-- Componentwise `os.path.relpath` for already-absolute, already-normal
POSIX paths: drop the common leading components, then one `..` per
remaining component of `start`, followed by the remaining components of
`path`. -/
def relSegs : List (List Char) → List (List Char) → List (List Char)
  | p, [] => p
  | [], s => s.map (fun _ => ['.', '.'])
  | a :: p', b :: s' =>
    if a = b then relSegs p' s'
    else ((b :: s').map (fun _ => ['.', '.'])) ++ a :: p'

/-- `os.path.relpath(path, start)` for absolute normal POSIX paths. -/
def relpathChars (path start : List Char) : List Char :=
  match relSegs (splitComponents path) (splitComponents start) with
  | [] => ['.']
  | segs => joinWith '/' segs

/-- `os.path.normpath` for absolute POSIX paths: resolve `.` and `..`
components textually. -/
def normSegsAux (acc : List (List Char)) : List (List Char) → List (List Char)
  | [] => acc
  | c :: rest =>
    if c = ['.'] then normSegsAux acc rest
    else if c = ['.', '.'] then normSegsAux acc.dropLast rest
    else normSegsAux (acc ++ [c]) rest

/-- `os.path.normpath` of an absolute POSIX path. -/
def normpathAbs (s : List Char) : List Char :=
  '/' :: joinWith '/' (normSegsAux [] (splitComponents s))

/-- `os.path.splitext(s)[0]` for a plain file name: the name up to the
last dot, where leading dots never start an extension. -/
def stripExtChars (s : List Char) : List Char :=
  let lead := s.takeWhile (fun c => c = '.')
  let rest := s.drop lead.length
  if rest.contains '.' then
    lead ++ ((rest.reverse.dropWhile (fun c => c != '.')).drop 1).reverse
  else s

/-- `os.path.splitext(s)[0]` on strings. -/
def stripExt (s : String) : String := ⟨stripExtChars s.data⟩

/-- Substring containment on strings (Python `needle in hay`). -/
def strContains (hay needle : String) : Bool := containsSeq hay.data needle.data

/-- Replace backslashes by forward slashes
(Python `s.replace("\\", "/")`, a no-op on POSIX paths). -/
def unbackslash (c : Char) : Char := if c = '\\' then '/' else c

/-- The normalization both the apt matcher and the rpm lookup apply to a
query path before matching: `"/" + os.path.relpath(p, volumePath).replace("\\", "/")`. -/
def volumeRelPath (volumePath p : String) : String :=
  ⟨'/' :: (relpathChars p.data volumePath.data).map unbackslash⟩

/- ## Data model (from sbom_core/models/package_info.py) -/

/-- One vulnerability record as built by `_enrich_with_cve`
(`{'cve_id': ..., 'severity': ..., 'score': ...}`); the floating-point
score is carried as an optional rational, it is never computed with. -/
structure Vuln where
  cveId : String
  severity : String
  score : Option ℚ
deriving DecidableEq, Repr

/-- `PackageMetadata` restricted to the fields the analysis code reads
and writes (`files` keeps only the `path` of each `FileMetadata`, the
only field the code ever compares or stores). -/
structure Pkg where
  name : String
  version : String
  files : List String
  vulnerabilities : List Vuln
deriving DecidableEq, Repr

/-- `ServiceMetadata` restricted to the fields the analysis code uses. -/
structure Svc where
  name : String
  path : String
  status : String
  associatedPackage : Option String
  version : String
  executables : List String
deriving DecidableEq, Repr

/-- `AnalysisResult`: the packages and services accumulated by a scan. -/
structure Res where
  packages : List Pkg
  services : List Svc
deriving DecidableEq, Repr

/- ## APT manifest-scan ownership matcher (managers/apt.py `_find_owning_packages`) -/

/-- One `.list` manifest of the dpkg `info` directory: file name and
file content.  The directory listing of `/var/lib/dpkg/info` is passed
as a list of these. -/
structure InfoList where
  fname : String
  content : String
deriving DecidableEq, Repr

/-- The per-file loop of `_find_owning_packages`: a `.list` file whose
whole content contains some normalized target as a substring
(`if target_path in content`) contributes the file name without its
extension. -/
def aptOwnersAux (normalized : List String) : List InfoList → List String
  | [] => []
  | il :: rest =>
    if ".list".data.isSuffixOf il.fname.data &&
        normalized.any (fun t => strContains il.content t) then
      stripExt il.fname :: aptOwnersAux normalized rest
    else aptOwnersAux normalized rest

/-- `APTAnalyzer._find_owning_packages`: normalize every query path to a
root-relative slash path, then scan every `.list` manifest for it with a
substring test; `list(set(owners))` is modelled by deduplication. -/
def aptFindOwningPackages (infoDir : List InfoList) (execPaths : List String)
    (volumePath : String) : List String :=
  (aptOwnersAux (execPaths.map (volumeRelPath volumePath)) infoDir).dedup

/- ## CVE enrichment (managers/apt.py `_enrich_with_cve`, utils/cve.py) -/

/-- `_enrich_with_cve`: when nvdlib is available, look the package up and
ASSIGN the resulting list to `package.vulnerabilities` (the assignment
`package.vulnerabilities = [...]` replaces whatever was there); when
nvdlib is unavailable the package is returned untouched.  The network
lookup `CVEAnalyzer.lookup_cves` is passed in as a function. -/
def enrichWithCve (avail : Bool) (lookup : String → String → List Vuln)
    (p : Pkg) : Pkg :=
  if avail then { p with vulnerabilities := lookup p.name p.version } else p

/- ## Package merge step of `_analyze_static_service` (managers/apt.py) -/

/-- The file-merging loop
`for ep in exec_paths: if not any(f.path == ep for f in existing_pkg.files): existing_pkg.files.append(...)`:
append each path not already present, in order. -/
def addFilesIfMissing : List String → List String → List String
  | fs, [] => fs
  | fs, ep :: rest =>
    if ep ∈ fs then addFilesIfMissing fs rest
    else addFilesIfMissing (fs ++ [ep]) rest

/-- The per-owner package merge of `_analyze_static_service`: find the
record with the owner's name; if none exists create it (with empty file
list, optionally CVE-enriched) and append it at the end; then extend the
record's file list with the missing executable paths. -/
def mergePkg (cveOn avail : Bool) (lookup : String → String → List Vuln)
    (pkgName version : String) (eps : List String) : List Pkg → List Pkg
  | [] =>
    let p0 : Pkg := ⟨pkgName, version, [], []⟩
    let p1 := if cveOn then enrichWithCve avail lookup p0 else p0
    [{ p1 with files := addFilesIfMissing p1.files eps }]
  | p :: rest =>
    if p.name = pkgName then
      { p with files := addFilesIfMissing p.files eps } :: rest
    else p :: mergePkg cveOn avail lookup pkgName version eps rest

/-- `versions.get(pkg_name, "unknown")` over the dictionary produced by
`_extract_version` (passed as an association list). -/
def lookupVersion (versions : List (String × String)) (n : String) : String :=
  match versions.find? (fun p => p.1 = n) with
  | some p => p.2
  | none => "unknown"

/-- The service insertion of `_analyze_static_service`: a service is
appended only if no service of the same name is present, and at that
moment its `associated_package` and `version` are set to the current
owner (so the first owner wins). -/
def addServiceIfNew (svcs : List Svc) (svc : Svc) (pkgName version : String) :
    List Svc :=
  if svcs.any (fun s => s.name = svc.name) then svcs
  else svcs ++ [{ svc with associatedPackage := some pkgName, version := version }]

/-- The `for pkg_name in owning_packages` loop body of
`_analyze_static_service`, folded over the owner list. -/
def aptProcessOwners (cveOn avail : Bool) (lookup : String → String → List Vuln)
    (versions : List (String × String)) (svc : Svc) :
    List String → Res → Res
  | [], r => r
  | pkgName :: rest, r =>
    let version := lookupVersion versions pkgName
    let pkgs := mergePkg cveOn avail lookup pkgName version svc.executables r.packages
    let svcs := addServiceIfNew r.services svc pkgName version
    aptProcessOwners cveOn avail lookup versions svc rest ⟨pkgs, svcs⟩

/-- The main loop of `APTAnalyzer._analyze_static_service`: skip a
service with no executables, find its owning packages with the
manifest-scan matcher, then fold the per-owner merge. -/
def aptAnalyzeStaticService (cveOn avail : Bool)
    (lookup : String → String → List Vuln)
    (versions : List (String × String)) (infoDir : List InfoList)
    (volumePath : String) : List Svc → Res → Res
  | [], r => r
  | svc :: rest, r =>
    if svc.executables.isEmpty then
      aptAnalyzeStaticService cveOn avail lookup versions infoDir volumePath rest r
    else
      let owners := aptFindOwningPackages infoDir svc.executables volumePath
      aptAnalyzeStaticService cveOn avail lookup versions infoDir volumePath rest
        (aptProcessOwners cveOn avail lookup versions svc owners r)

/- ## APK backend (managers/apk.py `analyze_static`, service loop) -/

/-- One stanza of `/lib/apk/db/installed` as collected by
`_parse_apk_db`: `P:` name, `V:` version, `o:` owned files. -/
structure ApkPkg where
  name : String
  version : String
  files : List String
deriving DecidableEq, Repr

/-- The owner search of the apk service loop: the first parsed package
one of whose `o:` files equals a query path with its leading slashes
stripped; when none matches, owner and version stay `"unknown"`. -/
def apkFindOwner (pkgs : List ApkPkg) (execPaths : List String) :
    String × String :=
  match pkgs.find? (fun p =>
      p.files.any (fun f => execPaths.any (fun ep => f = (⟨lstripSlash ep.data⟩ : String)))) with
  | some p => (p.name, p.version)
  | none => ("unknown", "unknown")

/-- The service loop of `APKAnalyzer.analyze_static`: a service with no
executables is skipped; otherwise its `associated_package` and `version`
are set to the owner search result (the string `"unknown"` when nothing
matches) and the service is appended unless its name is already present. -/
def apkProcessServices (pkgs : List ApkPkg) : List Svc → List Svc → List Svc
  | [], acc => acc
  | svc :: rest, acc =>
    if svc.executables.isEmpty then apkProcessServices pkgs rest acc
    else
      let ov := apkFindOwner pkgs svc.executables
      let svc' := { svc with associatedPackage := some ov.1, version := ov.2 }
      let acc' := if acc.any (fun s => s.name = svc.name) then acc else acc ++ [svc']
      apkProcessServices pkgs rest acc'

/- ## RPM indexed lookup (sbom_core/managers/rpm.py `_find_owning_package`) -/

/-- One entry of the rpm `basenames` reverse index: an owned file path
together with the owning header's NAME and VERSION. -/
structure RpmEntry where
  path : String
  name : String
  version : String
deriving DecidableEq, Repr

/-- `RPMAnalyzer._find_owning_package`: normalize the on-disk path to a
volume-relative absolute path, query the index, and return the FIRST
matching header's name and version (`for hdr in mi: return ...`);
`("unknown", "unknown")` when the path is missing or nothing matches. -/
def rpmFindOwningPackage (index : List RpmEntry) (filePath : Option String)
    (volumePath : String) : String × String :=
  match filePath with
  | none => ("unknown", "unknown")
  | some fp =>
    let linux := volumeRelPath volumePath fp
    match index.find? (fun e => e.path = linux) with
    | some e => (e.name, e.version)
    | none => ("unknown", "unknown")

/- ## Filesystem model and the apt executable-path extractor
(managers/apt.py `_extract_executable_paths`) -/

/-- The filesystem visible to the extractor: the set of paths for which
`os.path.exists` is true, and the symlink table mapping a link path to
its `os.path.realpath` resolution. -/
structure FS where
  paths : List String
  links : List (String × String)
deriving DecidableEq, Repr

/-- `os.path.exists`. -/
def fsExists (fs : FS) (p : String) : Bool := fs.paths.contains p

/-- `os.path.islink`. -/
def fsIsLink (fs : FS) (p : String) : Bool :=
  (fs.links.find? (fun l => l.1 = p)).isSome

/-- `os.path.realpath` (identity on non-links). -/
def fsRealpath (fs : FS) (p : String) : String :=
  match fs.links.find? (fun l => l.1 = p) with
  | some l => l.2
  | none => p

/-- The scan of one line for the unanchored pattern
`(Exec(?:Start|Stop|Pre)?=)(.+)`: the leftmost occurrence of one of the
four directive heads followed by at least one character yields the rest
of the line. -/
def findExecDirective : List Char → Option (List Char)
  | [] => none
  | l@(_ :: t) =>
    if "ExecStart=".data.isPrefixOf l && !(l.drop 10).isEmpty then some (l.drop 10)
    else if "ExecStop=".data.isPrefixOf l && !(l.drop 9).isEmpty then some (l.drop 9)
    else if "ExecPre=".data.isPrefixOf l && !(l.drop 8).isEmpty then some (l.drop 8)
    else if "Exec=".data.isPrefixOf l && !(l.drop 5).isEmpty then some (l.drop 5)
    else findExecDirective t

/-- The body of `_extract_executable_paths` for one matched line: first
whitespace token, one leading `-` stripped, then the existence cascade —
an existing volume-relative location is returned (through `realpath`
when it is a symlink), otherwise an existing host location, otherwise
nothing.  (Paths here are absolute, where `os.path.abspath` is the
identity; for a directive value that is all whitespace the Python code
raises `IndexError`, which no well-formed unit file reaches.) -/
def aptExtractFromLine (fs : FS) (volumePath : String) (line : List Char) :
    Option String :=
  match findExecDirective line with
  | none => none
  | some value =>
    match pyWords value with
    | [] => none
    | tok :: _ =>
      let stripped := trimWs tok
      let path : List Char :=
        match stripped with
        | '-' :: t => t
        | _ => stripped
      let potential : String := ⟨normpathAbs (volumePath.data ++ '/' :: lstripSlash path)⟩
      if fsExists fs potential then
        if fsIsLink fs potential then some (fsRealpath fs potential)
        else some potential
      else if fsExists fs ⟨path⟩ then some ⟨path⟩
      else none

/-- `APTAnalyzer._extract_executable_paths` applied to the text of a
unit file (the file read is folded in: `content` is the file's text, the
empty string when the unit file is absent). -/
def aptExtractExecutablePaths (fs : FS) (volumePath : String)
    (content : String) : List String :=
  (splitChar '\n' content.data).filterMap (aptExtractFromLine fs volumePath)

/- ## Init-system executable parsers (sbom_core/init_systems/) -/

/-- The anchored pattern `^(?:Exec(?:Start|Stop|Pre|Post|Reload))=(.+)$`
of `SystemdAnalyzer.parse_service_executables` applied to one line. -/
def sysdDirective (line : List Char) : Option (List Char) :=
  if "ExecStart=".data.isPrefixOf line && !(line.drop 10).isEmpty then some (line.drop 10)
  else if "ExecStop=".data.isPrefixOf line && !(line.drop 9).isEmpty then some (line.drop 9)
  else if "ExecPre=".data.isPrefixOf line && !(line.drop 8).isEmpty then some (line.drop 8)
  else if "ExecPost=".data.isPrefixOf line && !(line.drop 9).isEmpty then some (line.drop 9)
  else if "ExecReload=".data.isPrefixOf line && !(line.drop 11).isEmpty then some (line.drop 11)
  else none

/-- The modifier strip of the systemd parser:
`while cmd and cmd[0] in ['-', '@', '+', '!', ':']`. -/
def sysdModStrip : List Char → List Char
  | [] => []
  | c :: t =>
    if c = '-' ∨ c = '@' ∨ c = '+' ∨ c = '!' ∨ c = ':' then sysdModStrip t
    else c :: t

/-- `SystemdAnalyzer.parse_service_executables`: for every `Exec*=` line
strip the value, strip leading modifier characters, take the first
whitespace token, and keep it when it begins with `/`; `list(set(...))`
is modelled by deduplication. -/
def systemdParseServiceExecutables (content : String) : List String :=
  ((splitChar '\n' content.data).filterMap (fun line =>
    match sysdDirective line with
    | none => none
    | some v =>
      match pyWords (sysdModStrip (trimWs v)) with
      | [] => none
      | exe :: _ =>
        if "/".data.isPrefixOf exe then some (⟨exe⟩ : String) else none)).dedup

/-- The quote characters excluded by the capture class `[^"\']`. -/
def isQuoteCh (c : Char) : Bool := c = '"' ∨ c = '\''

/-- Advance past the current line: the suffix following the next
newline, empty when no newline remains. -/
def skipLine (l : List Char) : List Char :=
  (l.dropWhile (fun c => c != '\n')).drop 1

/-- The literal heads `DAEMON=`/`BINARY=`/`COMMAND=` of the SysV
pattern, with the length of the matched literal (the alternatives are
mutually exclusive, so the regex alternation order is immaterial). -/
def sysvHead (l : List Char) : Option Nat :=
  if "DAEMON=".data.isPrefixOf l then some 7
  else if "BINARY=".data.isPrefixOf l then some 7
  else if "COMMAND=".data.isPrefixOf l then some 8
  else none

/-- The literal head `command=` of the OpenRC pattern. -/
def openrcHead (l : List Char) : Option Nat :=
  if "command=".data.isPrefixOf l then some 8 else none

/-- Consume one optional quote character (`["\']?`). -/
def stripQuoteHead (r : List Char) : List Char :=
  match r with
  | c :: t => if isQuoteCh c then t else r
  | [] => []

/-- One attempt of `<head>["\']?([^"\']+)["\']?` at a line start: the
literal head via `hd`, one optional quote, then the capture — a maximal
NONEMPTY run of non-quote characters, which crosses newlines, since
`re.MULTILINE` only affects `^` — then one optional quote.  Returns the
capture and the suffix after the consumed match; `none` when the run
would be empty (which also covers the backtracking of the optional
leading quote: both alternatives then fail on a quote character). -/
def reMatchAt (hd : List Char → Option Nat) (l : List Char) :
    Option (List Char × List Char) :=
  match hd l with
  | none => none
  | some n =>
    let r' := stripQuoteHead (l.drop n)
    let cap := r'.takeWhile (fun d => !isQuoteCh d)
    if cap.isEmpty then none
    else some (cap, stripQuoteHead (r'.drop cap.length))

/-- The scan of `re.findall(pattern, content, re.MULTILINE)` for the
`^`-anchored patterns: a match may start only at a line start
(`atStart`); after a match the scan resumes mid-line at the consumed
suffix, so the next candidate is the next line start; after a failed
attempt no later position of the current line satisfies `^`, so the
scan skips to the next line.  `fuel` only bounds the recursion: every
step consumes at least one character, so `length + 1` suffices
(`reScanAux_fuel`). -/
def reScanAux (hd : List Char → Option Nat) :
    Nat → Bool → List Char → List (List Char)
  | 0, _, _ => []
  | _ + 1, _, [] => []
  | fuel + 1, atStart, c :: t =>
    if atStart then
      match reMatchAt hd (c :: t) with
      | some cr => cr.1 :: reScanAux hd fuel false cr.2
      | none => reScanAux hd fuel true (skipLine (c :: t))
    else reScanAux hd fuel true (skipLine (c :: t))

/-- `re.findall(r'^<heads>["\']?([^"\']+)["\']?', s, re.MULTILINE)`:
all captures, in scan order. -/
def pyFindallCaptures (hd : List Char → Option Nat) (s : List Char) :
    List (List Char) :=
  reScanAux hd (s.length + 1) true s

/-- `SysVInitAnalyzer.parse_service_executables`: the script path itself
is always an executable, plus every stripped regex capture that begins
with `/` — the whole captured value, which on an unquoted line crosses
newlines up to the first quote character or end of file, not a first
token; `list(set(...))` is modelled by deduplication. -/
def sysvParseServiceExecutables (servicePath : String) (content : String) :
    List String :=
  (servicePath :: (pyFindallCaptures sysvHead content.data).filterMap (fun cap =>
    let path := trimWs cap
    if "/".data.isPrefixOf path then some (⟨path⟩ : String) else none)).dedup

/-- `OpenRCAnalyzer.parse_service_executables`: the script path itself
plus every stripped `command=` capture beginning with `/`, with the
same newline-crossing capture as the SysV parser. -/
def openrcParseServiceExecutables (servicePath : String) (content : String) :
    List String :=
  (servicePath :: (pyFindallCaptures openrcHead content.data).filterMap (fun cap =>
    let path := trimWs cap
    if "/".data.isPrefixOf path then some (⟨path⟩ : String) else none)).dedup

/-- The first whitespace-delimited token of a character list, when one
exists: skip leading whitespace, then the maximal nonempty run of
non-whitespace characters (`s.split()[0]` of Python, when defined). -/
def tokenHead (s : List Char) : Option (List Char) :=
  match s.dropWhile Char.isWhitespace with
  | [] => none
  | c :: t => some ((c :: t).takeWhile (fun d => !d.isWhitespace))

/- ## Version normalization (utils/cve.py `CVEAnalyzer.normalize_version`) -/

/-- `re.sub(r'^\d+:', '', s)`: strip one leading run of digits followed
by a colon, when present. -/
def stripEpoch (s : List Char) : List Char :=
  let ds := s.takeWhile Char.isDigit
  if ds.isEmpty then s
  else
    match s.drop ds.length with
    | ':' :: rest => rest
    | _ => s

/-- A pending `\.\d+` group is committed only once it holds at least
one digit. -/
def dotCommit (pend : List Char) : List Char :=
  match pend with
  | [] => []
  | ['.'] => []
  | _ => pend

/-- Single-pass scanner for `(?:\.\d+)*`: `acc` holds the committed
groups, `pend` the group currently being read. -/
def dotGroupsAux : List Char → List Char → List Char → List Char
  | [], acc, pend => acc ++ dotCommit pend
  | c :: t, acc, pend =>
    if pend = [] then
      if c = '.' then dotGroupsAux t acc ['.'] else acc
    else if pend = ['.'] then
      if c.isDigit then dotGroupsAux t acc ['.', c] else acc
    else
      if c.isDigit then dotGroupsAux t acc (pend ++ [c])
      else if c = '.' then dotGroupsAux t (acc ++ pend) ['.']
      else acc ++ pend

/-- The `(?:\.\d+)*` part of the leading version-run pattern: the
maximal run of dot-plus-digits groups. -/
def dotRuns (s : List Char) : List Char := dotGroupsAux s [] []

/-- The `(?:p\d+)?` part of the leading version-run pattern. -/
def pRun : List Char → List Char
  | 'p' :: rest =>
    let ds := rest.takeWhile Char.isDigit
    if ds.isEmpty then [] else 'p' :: ds
  | _ => []

/-- `re.match(r'^(\d+(?:\.\d+)*(?:p\d+)?)', s)`: the leading version
run, when `s` starts with a digit. -/
def leadingVersionRun (s : List Char) : Option (List Char) :=
  let ds := s.takeWhile Char.isDigit
  if ds.isEmpty then none
  else
    let rest1 := s.drop ds.length
    let dr := dotRuns rest1
    some (ds ++ dr ++ pRun (rest1.drop dr.length))

/-- `CVEAnalyzer.normalize_version`: empty in, empty out; otherwise
strip a leading epoch, return the leading version run when the rest
starts with a digit, and otherwise the part before the first dash. -/
def normalizeVersion (version : String) : String :=
  if version = "" then ""
  else
    let v := stripEpoch version.data
    match leadingVersionRun v with
    | some r => ⟨r⟩
    | none =>
      if v.contains '-' then ⟨v.takeWhile (fun c => c != '-')⟩ else ⟨v⟩

/-- Modelled from the spec: the same normalization rule in the spec's
own words — "strip a leading `epoch:` prefix if present; take the
leading run matching `\d+(\.\d+)*(p\d+)?`; otherwise fall back to the
substring before the first `-`" — used to check the code against the
spec sentence. -/
def specNormalizeVersion (version : String) : String :=
  let v := stripEpoch version.data
  match leadingVersionRun v with
  | some r => ⟨r⟩
  | none => ⟨v.takeWhile (fun c => c != '-')⟩

/- ## Package-manager selection (main.py) -/

/-- The four package-manager backends, in the order `main.py` lists
them. -/
inductive PkgManager
  | apt
  | rpm
  | pacman
  | apk
deriving DecidableEq, Repr

/-- `APTAnalyzer.detect`: the dpkg status file exists under the volume.
The volume is modelled as the set of volume-relative paths that exist. -/
def detectAPT (vol : List String) : Bool := vol.contains "var/lib/dpkg/status"

/-- `RPMAnalyzer.detect`. -/
def detectRPM (vol : List String) : Bool := vol.contains "var/lib/rpm"

/-- `PacmanAnalyzer.detect`. -/
def detectPacman (vol : List String) : Bool := vol.contains "var/lib/pacman/local"

/-- `APKAnalyzer.detect`. -/
def detectAPK (vol : List String) : Bool := vol.contains "lib/apk/db/installed"

/-- `detect` dispatched over the backend list. -/
def pmDetects (m : PkgManager) (vol : List String) : Bool :=
  match m with
  | .apt => detectAPT vol
  | .rpm => detectRPM vol
  | .pacman => detectPacman vol
  | .apk => detectAPK vol

/-- The candidate order of `main.py`:
`[APTAnalyzer(), RPMAnalyzer(), PacmanAnalyzer(), APKAnalyzer()]`. -/
def analyzerOrder : List PkgManager := [.apt, .rpm, .pacman, .apk]

/-- The auto-detection loop of `main.py`: the first backend whose
`detect` succeeds is selected and the loop breaks. -/
def selectAnalyzer (vol : List String) : Option PkgManager :=
  analyzerOrder.find? (fun m => pmDetects m vol)

/- ## CycloneDX projection (sbom_core/output/cdx.py) -/

/-- The analyzing host's distribution marker files, the only inputs of
`get_linux_distribution`: the content of the host's `/etc/os-release`
when that file exists, and the existence of the three release marker
files. -/
structure HostFS where
  osRelease : Option String
  debianVersion : Bool
  redhatRelease : Bool
  archRelease : Bool
deriving DecidableEq, Repr

/-- The distro-id mapping of `get_linux_distribution`. -/
def mapDistroId (distId : String) : String :=
  if distId = "ubuntu" ∨ distId = "debian" then "debian"
  else if distId = "centos" ∨ distId = "rhel" ∨ distId = "fedora" then "rpm"
  else if distId = "arch" then "arch"
  else "generic"

/-- `line.split("=")[1].strip().lower().replace('"', '')` for a line
known to contain `=`. -/
def extractDistId (line : List Char) : String :=
  let second :=
    match splitChar '=' line with
    | _ :: x :: _ => x
    | _ => []
  ⟨((trimWs second).map Char.toLower).filter (fun c => c != '"')⟩

/-- The marker-file fallback chain of `get_linux_distribution`. -/
def fallbackChain (host : HostFS) : String :=
  if host.debianVersion then "debian"
  else if host.redhatRelease then "redhat"
  else if host.archRelease then "arch"
  else "unknown"

/-- `get_linux_distribution`: when the HOST's `/etc/os-release` exists,
the first `ID=` line decides (every branch of the mapping returns);
otherwise — also when no `ID=` line is present — the host's marker
files decide. -/
def getLinuxDistribution (host : HostFS) : String :=
  match host.osRelease with
  | some content =>
    match (splitChar '\n' content.data).find? (fun l => "ID=".data.isPrefixOf l) with
    | some line => mapDistroId (extractDistId line)
    | none => fallbackChain host
  | none => fallbackChain host

/-- One entry of the CycloneDX `components` list (`bom-ref` always
equals `purl` in the code and is omitted; `type` is always
`"application"`). -/
structure Component where
  name : String
  version : String
  group : Option String
  purl : String
deriving DecidableEq, Repr

/-- Python truthiness of `svc.associated_package`. -/
def isTruthyStr : Option String → Bool
  | none => false
  | some s => s ≠ ""

/-- `generate_cyclonedx`: one component per package with purl
`pkg:<distro>/<name>@<version>`, plus one per service without a truthy
associated package with purl `pkg:<distro>/<name>@unknown`; the distro
comes from the host, never from the analyzed result. -/
def generateCyclonedx (host : HostFS) (res : Res) : List Component :=
  let distro := getLinuxDistribution host
  (res.packages.map (fun p =>
    { name := p.name, version := p.version, group := some "Application",
      purl := "pkg:" ++ distro ++ "/" ++ p.name ++ "@" ++ p.version }))
  ++ (res.services.filterMap (fun s =>
    if isTruthyStr s.associatedPackage then none
    else some { name := s.name, version := "unknown", group := none,
                purl := "pkg:" ++ distro ++ "/" ++ s.name ++ "@unknown" }))

/-- The `<distro>` component of a purl `pkg:<distro>/...`: the text
between `pkg:` and the first subsequent slash. -/
def purlDistro (purl : String) : String :=
  ⟨(purl.data.drop 4).takeWhile (fun c => c != '/')⟩

/- ## Helper lemmas -/

theorem addFilesIfMissing_eq_append (eps : List String) :
    ∀ fs, ∃ extra, addFilesIfMissing fs eps = fs ++ extra := by
  induction eps with
  | nil => intro fs; exact ⟨[], by simp [addFilesIfMissing]⟩
  | cons ep rest ih =>
    intro fs
    by_cases h : ep ∈ fs
    · obtain ⟨extra, he⟩ := ih fs
      exact ⟨extra, by simp [addFilesIfMissing, h, he]⟩
    · obtain ⟨extra, he⟩ := ih (fs ++ [ep])
      exact ⟨ep :: extra, by simp [addFilesIfMissing, h, he]⟩

theorem mem_addFilesIfMissing_left (eps : List String) (fs : List String)
    (e : String) (h : e ∈ fs) : e ∈ addFilesIfMissing fs eps := by
  obtain ⟨extra, he⟩ := addFilesIfMissing_eq_append eps fs
  rw [he]
  exact List.mem_append_left _ h

theorem mem_addFilesIfMissing (eps : List String) :
    ∀ fs e, e ∈ eps → e ∈ addFilesIfMissing fs eps := by
  induction eps with
  | nil => intro _ _ h; cases h
  | cons ep rest ih =>
    intro fs e h
    unfold addFilesIfMissing
    by_cases hm : ep ∈ fs
    · rw [if_pos hm]
      rcases List.mem_cons.mp h with rfl | h'
      · exact mem_addFilesIfMissing_left rest fs e hm
      · exact ih fs e h'
    · rw [if_neg hm]
      rcases List.mem_cons.mp h with rfl | h'
      · exact mem_addFilesIfMissing_left rest (fs ++ [e]) e (by simp)
      · exact ih _ e h'

theorem addFilesIfMissing_of_subset (eps : List String) :
    ∀ fs, (∀ e ∈ eps, e ∈ fs) → addFilesIfMissing fs eps = fs := by
  induction eps with
  | nil => intro fs _; rfl
  | cons ep rest ih =>
    intro fs h
    have hm : ep ∈ fs := h ep (by simp)
    unfold addFilesIfMissing
    rw [if_pos hm]
    exact ih fs (fun e he => h e (by simp [he]))

theorem addFilesIfMissing_idem (eps fs : List String) :
    addFilesIfMissing (addFilesIfMissing fs eps) eps = addFilesIfMissing fs eps :=
  addFilesIfMissing_of_subset eps _ (fun e he => mem_addFilesIfMissing eps fs e he)

theorem find?_eq_filter_head {α : Type} (p : α → Bool) :
    ∀ l : List α, l.find? p = (l.filter p).head? := by
  intro l
  induction l with
  | nil => rfl
  | cons a t ih =>
    by_cases h : p a
    · rw [List.find?_cons_of_pos _ h, List.filter_cons_of_pos h]
      rfl
    · rw [List.find?_cons_of_neg _ h, List.filter_cons_of_neg h, ih]

theorem takeWhile_append_of_all {p : Char → Bool} :
    ∀ (a b : List Char), (∀ c ∈ a, p c = true) →
    (a ++ b).takeWhile p = a ++ b.takeWhile p := by
  intro a
  induction a with
  | nil => intro b _; rfl
  | cons c t ih =>
    intro b h
    have hc : p c = true := h c (by simp)
    simp only [List.cons_append, List.takeWhile_cons, hc, if_true]
    rw [ih b (fun d hd => h d (by simp [hd]))]

theorem strAppend_assoc (a b c : String) : a ++ b ++ c = a ++ (b ++ c) := by
  simp [String.ext_iff]

theorem aptOwnersAux_mem (normalized : List String) :
    ∀ (infoDir : List InfoList) (il : InfoList), il ∈ infoDir →
    (".list".data.isSuffixOf il.fname.data &&
      normalized.any (fun t => strContains il.content t)) = true →
    stripExt il.fname ∈ aptOwnersAux normalized infoDir := by
  intro infoDir
  induction infoDir with
  | nil => intro il h; cases h
  | cons hd tl ih =>
    intro il hmem hcond
    rcases List.mem_cons.mp hmem with rfl | h'
    · unfold aptOwnersAux
      rw [if_pos hcond]
      exact List.mem_cons_self _ _
    · unfold aptOwnersAux
      by_cases hc : (".list".data.isSuffixOf hd.fname.data &&
          normalized.any (fun t => strContains hd.content t)) = true
      · rw [if_pos hc]
        exact List.mem_cons_of_mem _ (ih il h' hcond)
      · rw [if_neg hc]
        exact ih il h' hcond

theorem mergePkg_mono (cveOn avail : Bool) (lookup : String → String → List Vuln)
    (pkgName version : String) (eps : List String) :
    ∀ (pkgs : List Pkg) (p : Pkg), p ∈ pkgs →
    ∃ extra, { p with files := p.files ++ extra } ∈
      mergePkg cveOn avail lookup pkgName version eps pkgs := by
  intro pkgs
  induction pkgs with
  | nil => intro p h; cases h
  | cons q rest ih =>
    intro p hp
    unfold mergePkg
    by_cases hq : q.name = pkgName
    · rw [if_pos hq]
      rcases List.mem_cons.mp hp with rfl | h'
      · obtain ⟨extra, he⟩ := addFilesIfMissing_eq_append eps p.files
        exact ⟨extra, by rw [← he]; exact List.mem_cons_self _ _⟩
      · refine ⟨[], ?_⟩
        rw [List.append_nil]
        exact List.mem_cons_of_mem _ h'
    · rw [if_neg hq]
      rcases List.mem_cons.mp hp with rfl | h'
      · refine ⟨[], ?_⟩
        rw [List.append_nil]
        exact List.mem_cons_self _ _
      · obtain ⟨extra, he⟩ := ih p h'
        exact ⟨extra, List.mem_cons_of_mem _ he⟩

theorem getLinuxDistribution_mem (host : HostFS) :
    getLinuxDistribution host ∈
      (["debian", "rpm", "arch", "generic", "redhat", "unknown"] : List String) := by
  unfold getLinuxDistribution
  have hfb : fallbackChain host ∈
      (["debian", "rpm", "arch", "generic", "redhat", "unknown"] : List String) := by
    unfold fallbackChain
    split
    · simp
    · split
      · simp
      · split <;> simp
  have hmap : ∀ s, mapDistroId s ∈
      (["debian", "rpm", "arch", "generic", "redhat", "unknown"] : List String) := by
    intro s
    unfold mapDistroId
    split
    · simp
    · split
      · simp
      · split <;> simp
  cases host.osRelease with
  | none => exact hfb
  | some content =>
    simp only
    cases (splitChar '\n' content.data).find? (fun l => "ID=".data.isPrefixOf l) with
    | none => exact hfb
    | some line => exact hmap _

theorem getLinuxDistribution_no_slash (host : HostFS) :
    ∀ c ∈ (getLinuxDistribution host).data, c ≠ '/' := by
  have h := getLinuxDistribution_mem host
  simp only [List.mem_cons, List.not_mem_nil, or_false] at h
  rcases h with h | h | h | h | h | h <;> rw [h] <;> decide

theorem purlDistro_of_shape (d rest : String) (hd : ∀ c ∈ d.data, c ≠ '/') :
    purlDistro ("pkg:" ++ d ++ "/" ++ rest) = d := by
  unfold purlDistro
  have hdata : ("pkg:" ++ d ++ "/" ++ rest).data =
      "pkg:".data ++ (d.data ++ '/' :: rest.data) := by
    simp [List.append_assoc]
  rw [hdata]
  have h4 : (4 : Nat) = "pkg:".data.length := by decide
  rw [h4, List.drop_left]
  have hall : ∀ c ∈ d.data, (c != '/') = true := by
    intro c hc
    simpa using hd c hc
  rw [takeWhile_append_of_all d.data ('/' :: rest.data) hall]
  have : List.takeWhile (fun c => c != '/') ('/' :: rest.data) = [] := by
    simp [List.takeWhile_cons]
  rw [this, List.append_nil]

theorem generateCyclonedx_purl_shape (host : HostFS) (res : Res) (c : Component)
    (hc : c ∈ generateCyclonedx host res) :
    ∃ n v, c.purl = "pkg:" ++ getLinuxDistribution host ++ "/" ++ n ++ "@" ++ v := by
  unfold generateCyclonedx at hc
  rcases List.mem_append.mp hc with h | h
  · rcases List.mem_map.mp h with ⟨p, _, rfl⟩
    exact ⟨p.name, p.version, rfl⟩
  · rcases List.mem_filterMap.mp h with ⟨s, _, hs⟩
    by_cases ht : isTruthyStr s.associatedPackage
    · simp [ht] at hs
    · simp only [Bool.not_eq_true] at ht
      rw [ht] at hs
      simp only [if_neg Bool.false_ne_true] at hs
      injection hs with hs
      subst hs
      refine ⟨s.name, "unknown", ?_⟩
      show "pkg:" ++ getLinuxDistribution host ++ "/" ++ s.name ++ "@unknown" = _
      simp [String.ext_iff]

/- ## Claim theorems -/

/-- **C1.** Evaluation of the apt manifest-scan matcher at the spec's
own differentiating input: package `A` owns `/usr/bin/foo`, package `B`
owns `/usr/bin/foobar`, and the query `/usr/bin/foo` returns BOTH `A`
and `B` — the code performs a substring search over the whole manifest
content, not the exact entry match the claim (and the code's own
comment) requires. -/
theorem c1_apt_substring_false_positive :
    "A" ∈ aptFindOwningPackages
        [⟨"A.list", "/usr/bin/foo\n"⟩, ⟨"B.list", "/usr/bin/foobar\n"⟩]
        ["/vol/usr/bin/foo"] "/vol" ∧
    "B" ∈ aptFindOwningPackages
        [⟨"A.list", "/usr/bin/foo\n"⟩, ⟨"B.list", "/usr/bin/foobar\n"⟩]
        ["/vol/usr/bin/foo"] "/vol" := by
  decide

/-- **C7.** Version normalization agrees with the spec's rule (strip a
leading epoch, take the leading `\d+(\.\d+)*(p\d+)?` run, otherwise the
part before the first dash) on every input, and maps the three example
versions exactly as claimed. -/
theorem c7_normalize_version_correct :
    (∀ v, normalizeVersion v = specNormalizeVersion v) ∧
    normalizeVersion "1:8.2p1-4ubuntu0.13" = "8.2p1" ∧
    normalizeVersion "245.4-4ubuntu3.21" = "245.4" ∧
    normalizeVersion "2.0.9" = "2.0.9" := by
  refine ⟨?_, by decide, by decide, by decide⟩
  intro v
  by_cases hv : v = ""
  · subst hv; decide
  · unfold normalizeVersion specNormalizeVersion
    rw [if_neg hv]
    cases hlv : leadingVersionRun (stripEpoch v.data) with
    | some r => simp only [hlv]
    | none =>
      simp only [hlv]
      by_cases hd : (stripEpoch v.data).contains '-'
      · rw [if_pos hd]
      · rw [if_neg hd]
        have hall : ∀ c ∈ stripEpoch v.data, (c != '-') = true := by
          intro c hc
          have hne : c ≠ '-' := by
            intro he
            subst he
            exact absurd (List.elem_iff.mpr hc) (by simpa [List.contains] using hd)
          simpa using hne
        rw [List.takeWhile_eq_self_iff.mpr hall]

/-- **C8.** The package-merge step of `_analyze_static_service` is
idempotent: merging the same package data twice yields the same package
list (hence the same file set) as merging it once. -/
theorem c8_merge_idempotent (cveOn avail : Bool)
    (lookup : String → String → List Vuln) (pkgName version : String)
    (eps : List String) :
    ∀ pkgs, mergePkg cveOn avail lookup pkgName version eps
        (mergePkg cveOn avail lookup pkgName version eps pkgs)
      = mergePkg cveOn avail lookup pkgName version eps pkgs := by
  intro pkgs
  induction pkgs with
  | nil =>
    by_cases hc : cveOn <;> by_cases ha : avail <;>
      simp [mergePkg, enrichWithCve, hc, ha, addFilesIfMissing_idem]
  | cons q rest ih =>
    by_cases hq : q.name = pkgName
    · simp only [mergePkg, if_pos hq]
      have hq2 : ({ q with files := addFilesIfMissing q.files eps } : Pkg).name =
          pkgName := hq
      simp only [mergePkg, if_pos hq2, addFilesIfMissing_idem]
    · simp only [mergePkg, if_neg hq, ih]

/-- **C9.** `main.py` probes the backends in the fixed order APT, RPM,
Pacman, APK and selects the first whose `detect` succeeds; in
particular a volume holding both a dpkg status file and a pacman local
database is handled by the APT backend alone. -/
theorem c9_backend_selection :
    (∀ vol, selectAnalyzer vol =
      if detectAPT vol then some PkgManager.apt
      else if detectRPM vol then some PkgManager.rpm
      else if detectPacman vol then some PkgManager.pacman
      else if detectAPK vol then some PkgManager.apk
      else none) ∧
    selectAnalyzer ["var/lib/dpkg/status", "var/lib/pacman/local"] =
      some PkgManager.apt := by
  refine ⟨?_, by decide⟩
  intro vol
  simp only [selectAnalyzer, analyzerOrder]
  cases h1 : detectAPT vol <;> cases h2 : detectRPM vol <;>
    cases h3 : detectPacman vol <;> cases h4 : detectAPK vol <;>
    simp [List.find?, pmDetects, h1, h2, h3, h4]

/-- **C10.** The `<distro>` component of every purl emitted by the
CycloneDX projection equals `get_linux_distribution()` of the analyzing
HOST's own release files; the analyzed result does not enter into it,
so two scans on the same host always carry the same distro string. -/
theorem c10_purl_distro_from_host (host : HostFS) (res : Res) (c : Component)
    (hc : c ∈ generateCyclonedx host res) :
    purlDistro c.purl = getLinuxDistribution host := by
  obtain ⟨n, v, hp⟩ := generateCyclonedx_purl_shape host res c hc
  rw [hp]
  have hshape : "pkg:" ++ getLinuxDistribution host ++ "/" ++ n ++ "@" ++ v =
      "pkg:" ++ getLinuxDistribution host ++ "/" ++ (n ++ "@" ++ v) := by
    simp [String.ext_iff]
  rw [hshape]
  exact purlDistro_of_shape _ _ (getLinuxDistribution_no_slash host)

/-- Witness for C10: the theorem applied to a one-package result on a
host with no release marker files. -/
theorem c10_witness :
    purlDistro (Component.mk "nginx" "1.18.0-6" (some "Application")
        "pkg:unknown/nginx@1.18.0-6").purl =
      getLinuxDistribution ⟨none, false, false, false⟩ :=
  c10_purl_distro_from_host ⟨none, false, false, false⟩
    ⟨[⟨"nginx", "1.18.0-6", [], []⟩], []⟩
    (Component.mk "nginx" "1.18.0-6" (some "Application")
      "pkg:unknown/nginx@1.18.0-6")
    (by decide)

theorem isPrefixOf_append_self (l t : List Char) : l.isPrefixOf (l ++ t) = true := by
  rw [List.isPrefixOf_iff_prefix]
  exact List.prefix_append l t

/-- **C2 counterexample.** A service whose single executable is owned by
no package is OMITTED from the apt static-service result: the claim's
"still appears with associatedPackage = null" fails — the result holds
no service at all. -/
theorem c2_counterexample :
    (aptAnalyzeStaticService false false (fun _ _ => []) []
        [⟨"A.list", "/usr/bin/other\n"⟩] "/vol"
        [⟨"foo.service", "", "unknown", none, "unknown", ["/vol/usr/bin/orphan"]⟩]
        ⟨[], []⟩).services = [] := by
  decide

/-- **C2 (amended).** A service whose owner set is empty contributes
nothing to the apt static-service result (it is dropped, not retained);
the apk backend instead retains an unmatched service, with
`associated_package` set to the STRING `"unknown"` (not null) and its
raw executable list. -/
theorem c2_amended_orphan_handling :
    (∀ (cveOn avail : Bool) (lookup : String → String → List Vuln)
        (versions : List (String × String)) (infoDir : List InfoList)
        (volumePath : String) (svcs : List Svc) (r : Res),
      (∀ svc ∈ svcs, aptFindOwningPackages infoDir svc.executables volumePath = []) →
      aptAnalyzeStaticService cveOn avail lookup versions infoDir volumePath svcs r = r) ∧
    (∀ (pkgs : List ApkPkg) (svc : Svc),
      svc.executables.isEmpty = false →
      (∀ p ∈ pkgs, (p.files.any (fun f => svc.executables.any
          (fun ep => f = (⟨lstripSlash ep.data⟩ : String)))) = false) →
      apkProcessServices pkgs [svc] [] =
        [{ svc with associatedPackage := some "unknown", version := "unknown" }]) := by
  constructor
  · intro cveOn avail lookup versions infoDir volumePath svcs
    induction svcs with
    | nil => intro r _; rfl
    | cons svc rest ih =>
      intro r h
      unfold aptAnalyzeStaticService
      by_cases he : svc.executables.isEmpty
      · rw [if_pos he]
        exact ih r (fun s hs => h s (List.mem_cons_of_mem _ hs))
      · rw [if_neg he]
        rw [h svc (List.mem_cons_self _ _)]
        exact ih r (fun s hs => h s (List.mem_cons_of_mem _ hs))
  · intro pkgs svc he hall
    have hfind : pkgs.find? (fun p => p.files.any fun f =>
        svc.executables.any fun ep => f = (⟨lstripSlash ep.data⟩ : String)) = none :=
      List.find?_eq_none.mpr (fun p hp => by simp [hall p hp])
    unfold apkProcessServices
    rw [if_neg (by simp [he])]
    simp [apkFindOwner, hfind, apkProcessServices]

/-- Witness for C2 (amended): both conjuncts applied at concrete
inputs — an all-orphan apt run leaves the result untouched, and the apk
loop retains an unmatched service with owner `"unknown"`. -/
theorem c2_witness :
    aptAnalyzeStaticService false false (fun _ _ => []) []
        [⟨"C.list", "/usr/bin/c\n"⟩] "/v"
        [⟨"bar.service", "", "unknown", none, "unknown", ["/v/usr/bin/none"]⟩]
        ⟨[], []⟩ = ⟨[], []⟩ ∧
    apkProcessServices [⟨"busybox", "1.35", ["bin/busybox"]⟩]
        [⟨"zed", "/e/init.d/zed", "unknown", none, "unknown", ["/usr/bin/zed"]⟩] [] =
      [⟨"zed", "/e/init.d/zed", "unknown", some "unknown", "unknown", ["/usr/bin/zed"]⟩] :=
  ⟨c2_amended_orphan_handling.1 false false (fun _ _ => []) []
      [⟨"C.list", "/usr/bin/c\n"⟩] "/v"
      [⟨"bar.service", "", "unknown", none, "unknown", ["/v/usr/bin/none"]⟩]
      ⟨[], []⟩ (by decide),
   c2_amended_orphan_handling.2 [⟨"busybox", "1.35", ["bin/busybox"]⟩]
      ⟨"zed", "/e/init.d/zed", "unknown", none, "unknown", ["/usr/bin/zed"]⟩
      (by decide) (by decide)⟩

/-- **C3 counterexample.** `_enrich_with_cve` ASSIGNS the lookup result
to `package.vulnerabilities`: a vulnerability attached by an earlier
pass is erased when the fresh lookup returns nothing, contradicting
"appended to, never replacing". -/
theorem c3_counterexample :
    (enrichWithCve true (fun _ _ => [])
        ⟨"openssl", "1.1.1f", [], [⟨"CVE-2024-0001", "HIGH", none⟩]⟩).vulnerabilities
      = [] ∧
    ([⟨"CVE-2024-0001", "HIGH", none⟩] : List Vuln) ≠ [] := by
  exact ⟨rfl, by decide⟩

/-- **C3 (amended).** The package-merge step is monotone — a merged
graph keeps every existing record with its name, version and
vulnerability list intact and its file list only extended — but
`_enrich_with_cve` REPLACES the vulnerability list with the fresh
lookup result instead of appending; on the freshly created (empty-list)
records it is actually invoked on, replacing and appending coincide. -/
theorem c3_amended_merge_monotone_enrich_replaces :
    (∀ (cveOn avail : Bool) (lookup : String → String → List Vuln)
        (pkgName version : String) (eps : List String) (pkgs : List Pkg) (p : Pkg),
      p ∈ pkgs →
      ∃ extra, { p with files := p.files ++ extra } ∈
        mergePkg cveOn avail lookup pkgName version eps pkgs) ∧
    (∀ (lookup : String → String → List Vuln) (p : Pkg),
      p.vulnerabilities = [] →
      (enrichWithCve true lookup p).vulnerabilities =
        p.vulnerabilities ++ lookup p.name p.version) := by
  constructor
  · intro cveOn avail lookup pkgName version eps pkgs p hp
    exact mergePkg_mono cveOn avail lookup pkgName version eps pkgs p hp
  · intro lookup p h
    simp [enrichWithCve, h]

/-- Witness for C3 (amended): a merge into a one-package graph keeps
the record's data, and enrichment of an empty-list package equals an
append. -/
theorem c3_witness :
    (∃ extra, Pkg.mk "a" "1" (["/bin/a"] ++ extra) [] ∈
      mergePkg false false (fun _ _ => []) "a" "1" ["/bin/b"]
        [⟨"a", "1", ["/bin/a"], []⟩]) ∧
    (enrichWithCve true (fun _ _ => [⟨"CVE-1", "LOW", none⟩])
        ⟨"x", "2", [], []⟩).vulnerabilities =
      [] ++ (fun _ _ => [⟨"CVE-1", "LOW", none⟩]) "x" "2" :=
  ⟨c3_amended_merge_monotone_enrich_replaces.1 false false (fun _ _ => []) "a" "1"
      ["/bin/b"] [⟨"a", "1", ["/bin/a"], []⟩] ⟨"a", "1", ["/bin/a"], []⟩ (by decide),
   c3_amended_merge_monotone_enrich_replaces.2 (fun _ _ => [⟨"CVE-1", "LOW", none⟩])
      ⟨"x", "2", [], []⟩ rfl⟩

/-- **C4 counterexample.** With no file anywhere on disk, the apt
extractor returns the EMPTY list for a well-formed `ExecStart=` line:
the referenced path is dropped, not returned as a best-effort canonical
path "flagged unverified" (no such flag exists in the code). -/
theorem c4_counterexample :
    aptExtractExecutablePaths ⟨[], []⟩ "/vol"
      "ExecStart=/usr/sbin/nginx -g daemon off;" = [] := by
  decide

/-- **C4 (amended).** A raw executable path whose resolved location
under the volume root holds no existing file is kept only when the raw
path itself exists on the analyzing host; on a filesystem with no
existing paths the extractor returns nothing at all. -/
theorem c4_amended_missing_paths_dropped (fs : FS) (volumePath : String)
    (content : String) (h : fs.paths = []) :
    aptExtractExecutablePaths fs volumePath content = [] := by
  unfold aptExtractExecutablePaths
  rw [List.filterMap_eq_nil_iff]
  intro line _
  unfold aptExtractFromLine
  have hex : ∀ q, fsExists fs q = false := by
    intro q
    simp [fsExists, h]
  cases hd : findExecDirective line with
  | none => simp [hd]
  | some v =>
    cases hw : pyWords v with
    | nil => simp [hd, hw]
    | cons tok rest => simp [hd, hw, hex]

/-- Witness for C4 (amended): the theorem applied to the empty
filesystem and a concrete unit line. -/
theorem c4_witness :
    aptExtractExecutablePaths ⟨[], []⟩ "/v" "ExecStart=/bin/sh -c x" = [] :=
  c4_amended_missing_paths_dropped ⟨[], []⟩ "/v" "ExecStart=/bin/sh -c x" rfl

/-- **C5 counterexample.** Two index entries record `/usr/bin/sh` as
owned by both `A` and `B`, yet the rpm lookup returns only the first,
`("A", "1")` — its return type is a single (name, version) pair, so the
claim's "every co-owning package name ... for the indexed-lookup
strategy" fails. -/
theorem c5_counterexample :
    rpmFindOwningPackage
        [⟨"/usr/bin/sh", "A", "1"⟩, ⟨"/usr/bin/sh", "B", "2"⟩]
        (some "/vol/usr/bin/sh") "/vol" = ("A", "1") := by
  decide

/-- **C5 (amended).** The manifest-scan matcher (apt) does return every
co-owning package — any `.list` manifest matching some normalized query
contributes its package name — but the rpm indexed lookup returns only
the FIRST index entry matching the normalized path (or
`("unknown", "unknown")`), resolving ambiguity to a single owner. -/
theorem c5_amended_coowner_handling :
    (∀ (infoDir : List InfoList) (eps : List String) (vol : String)
        (il : InfoList),
      il ∈ infoDir → ".list".data.isSuffixOf il.fname.data = true →
      (eps.map (volumeRelPath vol)).any (fun t => strContains il.content t) = true →
      stripExt il.fname ∈ aptFindOwningPackages infoDir eps vol) ∧
    (∀ (index : List RpmEntry) (fp vol : String),
      rpmFindOwningPackage index (some fp) vol =
        match (index.filter (fun e => e.path = volumeRelPath vol fp)).head? with
        | some e => (e.name, e.version)
        | none => ("unknown", "unknown")) := by
  constructor
  · intro infoDir eps vol il hmem hsuf hany
    unfold aptFindOwningPackages
    rw [List.mem_dedup]
    refine aptOwnersAux_mem _ infoDir il hmem ?_
    rw [hsuf, hany]
    rfl
  · intro index fp vol
    show (match index.find? (fun e => e.path = volumeRelPath vol fp) with
      | some e => (e.name, e.version)
      | none => ("unknown", "unknown")) =
        match (index.filter (fun e => e.path = volumeRelPath vol fp)).head? with
        | some e => (e.name, e.version)
        | none => ("unknown", "unknown")
    rw [find?_eq_filter_head]

/-- Witness for C5 (amended): a second co-owning manifest is reported
by the apt matcher, and the rpm lookup on a one-entry index equals the
head of the filtered index. -/
theorem c5_witness :
    stripExt "B2.list" ∈ aptFindOwningPackages
        [⟨"A.list", "/usr/bin/foo\n"⟩, ⟨"B2.list", "/usr/bin/foo\n"⟩]
        ["/v/usr/bin/foo"] "/v" ∧
    rpmFindOwningPackage ([⟨"/usr/bin/z", "Z", "9"⟩] : List RpmEntry)
        (some "/v/usr/bin/z") "/v" =
      match (([⟨"/usr/bin/z", "Z", "9"⟩] : List RpmEntry).filter
          (fun e => e.path = volumeRelPath "/v" "/v/usr/bin/z")).head? with
      | some e => (e.name, e.version)
      | none => ("unknown", "unknown") :=
  ⟨c5_amended_coowner_handling.1
      [⟨"A.list", "/usr/bin/foo\n"⟩, ⟨"B2.list", "/usr/bin/foo\n"⟩]
      ["/v/usr/bin/foo"] "/v" ⟨"B2.list", "/usr/bin/foo\n"⟩
      (by decide) (by decide) (by decide),
   c5_amended_coowner_handling.2 ([⟨"/usr/bin/z", "Z", "9"⟩] : List RpmEntry)
     "/v/usr/bin/z" "/v"⟩

/-- **C6 counterexample.** For the SysV line
`DAEMON=/usr/sbin/foo --quiet` the parser returns the WHOLE directive
value `/usr/sbin/foo --quiet` (not its first whitespace token, which is
absent from the result) and additionally the service-definition path
itself — two deviations from the claimed extraction rule. -/
theorem c6_counterexample :
    "/usr/sbin/foo --quiet" ∈ sysvParseServiceExecutables "/vol/etc/init.d/foo"
        "DAEMON=/usr/sbin/foo --quiet" ∧
    "/vol/etc/init.d/foo" ∈ sysvParseServiceExecutables "/vol/etc/init.d/foo"
        "DAEMON=/usr/sbin/foo --quiet" ∧
    "/usr/sbin/foo" ∉ sysvParseServiceExecutables "/vol/etc/init.d/foo"
        "DAEMON=/usr/sbin/foo --quiet" := by
  decide


theorem wordsAux_head :
    ∀ (t acc : List Char), acc ≠ [] →
    (wordsAux t acc).head? =
      some (acc.reverse ++ t.takeWhile (fun d => !d.isWhitespace)) := by
  intro t
  induction t with
  | nil =>
    intro acc hacc
    unfold wordsAux
    rw [if_neg hacc]
    simp
  | cons c t ih =>
    intro acc hacc
    unfold wordsAux
    by_cases hws : c.isWhitespace
    · rw [if_pos hws, if_neg hacc]
      rw [List.takeWhile_cons]
      simp [hws]
    · rw [if_neg hws]
      rw [ih (c :: acc) (by simp)]
      rw [List.takeWhile_cons]
      simp [hws, List.append_assoc]

theorem pyWords_head : ∀ s : List Char, (pyWords s).head? = tokenHead s := by
  intro s
  induction s with
  | nil => rfl
  | cons c t ih =>
    by_cases hws : c.isWhitespace
    · show (wordsAux (c :: t) []).head? = _
      unfold wordsAux
      rw [if_pos hws, if_pos rfl]
      rw [show wordsAux t [] = pyWords t from rfl, ih]
      unfold tokenHead
      rw [List.dropWhile_cons, if_pos hws]
    · show (wordsAux (c :: t) []).head? = _
      unfold wordsAux
      rw [if_neg hws]
      rw [wordsAux_head t [c] (by simp)]
      unfold tokenHead
      rw [List.dropWhile_cons, if_neg hws]
      simp [List.takeWhile_cons, hws]

theorem stripQuoteHead_length (r : List Char) :
    (stripQuoteHead r).length ≤ r.length := by
  cases r with
  | nil => simp [stripQuoteHead]
  | cons c t =>
    show (if isQuoteCh c = true then t else c :: t).length ≤ (c :: t).length
    by_cases h : isQuoteCh c
    · rw [if_pos h]
      simp
    · rw [if_neg h]

theorem reMatchAt_shrink (hd : List Char → Option Nat) (l : List Char)
    (cr : List Char × List Char) (h : reMatchAt hd l = some cr) :
    cr.2.length < l.length := by
  unfold reMatchAt at h
  cases hh : hd l with
  | none => rw [hh] at h; simp at h
  | some n =>
    simp only [hh] at h
    by_cases he : ((stripQuoteHead (l.drop n)).takeWhile (fun d => !isQuoteCh d)).isEmpty
    · rw [if_pos he] at h
      simp at h
    · rw [if_neg he] at h
      injection h with h
      subst h
      have h1 := stripQuoteHead_length
        ((stripQuoteHead (l.drop n)).drop
          ((stripQuoteHead (l.drop n)).takeWhile (fun d => !isQuoteCh d)).length)
      have h2 := List.length_drop
        ((stripQuoteHead (l.drop n)).takeWhile (fun d => !isQuoteCh d)).length
        (stripQuoteHead (l.drop n))
      have h3 : 1 ≤ ((stripQuoteHead (l.drop n)).takeWhile (fun d => !isQuoteCh d)).length := by
        cases hc : (stripQuoteHead (l.drop n)).takeWhile (fun d => !isQuoteCh d) with
        | nil => rw [hc] at he; exact absurd rfl he
        | cons _ _ => simp [hc]
      have h4 : ((stripQuoteHead (l.drop n)).takeWhile (fun d => !isQuoteCh d)).length ≤
          (stripQuoteHead (l.drop n)).length :=
        (List.takeWhile_sublist _).length_le
      have h5 := stripQuoteHead_length (l.drop n)
      have h6 := List.length_drop n l
      simp only [Prod.snd]
      omega

theorem skipLine_length (l : List Char) (h : l ≠ []) :
    (skipLine l).length < l.length := by
  unfold skipLine
  have h1 : (l.dropWhile (fun c => c != '\n')).length ≤ l.length :=
    (List.dropWhile_sublist _).length_le
  have h2 := List.length_drop 1 (l.dropWhile (fun c => c != '\n'))
  have h3 : 0 < l.length := List.length_pos.mpr h
  omega

theorem reScanAux_nil (hd : List Char → Option Nat) (fuel : Nat) (atStart : Bool) :
    reScanAux hd fuel atStart [] = [] := by
  cases fuel <;> rfl

theorem reScanAux_cons (hd : List Char → Option Nat) (fuel : Nat) (atStart : Bool)
    (c : Char) (t : List Char) :
    reScanAux hd (fuel + 1) atStart (c :: t) =
      if atStart then
        match reMatchAt hd (c :: t) with
        | some cr => cr.1 :: reScanAux hd fuel false cr.2
        | none => reScanAux hd fuel true (skipLine (c :: t))
      else reScanAux hd fuel true (skipLine (c :: t)) := rfl

theorem reScanAux_fuel (hd : List Char → Option Nat) :
    ∀ (f1 f2 : Nat) (atStart : Bool) (l : List Char),
    l.length < f1 → l.length < f2 →
    reScanAux hd f1 atStart l = reScanAux hd f2 atStart l := by
  intro f1
  induction f1 with
  | zero => intro f2 atStart l h1 _; omega
  | succ n ih =>
    intro f2 atStart l h1 h2
    cases l with
    | nil => rw [reScanAux_nil, reScanAux_nil]
    | cons c t =>
      cases f2 with
      | zero => omega
      | succ m =>
        have hlen : (c :: t).length = t.length + 1 := rfl
        rw [reScanAux_cons, reScanAux_cons]
        have hskip : (skipLine (c :: t)).length < (c :: t).length :=
          skipLine_length (c :: t) (by simp)
        by_cases hs : atStart
        · rw [if_pos hs, if_pos hs]
          cases hm : reMatchAt hd (c :: t) with
          | some cr =>
            have hlt := reMatchAt_shrink hd (c :: t) cr hm
            show cr.1 :: reScanAux hd n false cr.2 = cr.1 :: reScanAux hd m false cr.2
            rw [ih m false cr.2 (by omega) (by omega)]
          | none =>
            show reScanAux hd n true (skipLine (c :: t)) =
              reScanAux hd m true (skipLine (c :: t))
            rw [ih m true (skipLine (c :: t)) (by omega) (by omega)]
        · rw [if_neg hs, if_neg hs]
          rw [ih m true (skipLine (c :: t)) (by omega) (by omega)]

theorem reMatchAt_unquoted (hd : List Char → Option Nat) (pre v : List Char)
    (hn : hd (pre ++ v) = some pre.length) (hv : v ≠ [])
    (hq : ∀ c ∈ v, isQuoteCh c = false) :
    reMatchAt hd (pre ++ v) = some (v, []) := by
  unfold reMatchAt
  simp only [hn, List.drop_left]
  cases v with
  | nil => exact absurd rfl hv
  | cons c t =>
    have hc : isQuoteCh c = false := hq c (List.mem_cons_self _ _)
    have hsq : stripQuoteHead (c :: t) = c :: t := by
      show (if isQuoteCh c = true then t else c :: t) = c :: t
      rw [if_neg (by simp [hc])]
    rw [hsq]
    have hall : ∀ d ∈ c :: t, (!isQuoteCh d) = true := by
      intro d hdm
      simp [hq d hdm]
    rw [List.takeWhile_eq_self_iff.mpr hall]
    rw [if_neg (by simp)]
    rw [List.drop_length]
    rfl

theorem scan_unquoted_blob (hd : List Char → Option Nat) (pre v : List Char)
    (hn : hd (pre ++ v) = some pre.length) (hpre : pre ≠ []) (hv : v ≠ [])
    (hq : ∀ c ∈ v, isQuoteCh c = false) :
    pyFindallCaptures hd (pre ++ v) = [v] := by
  have hm := reMatchAt_unquoted hd pre v hn hv hq
  unfold pyFindallCaptures
  cases pre with
  | nil => exact absurd rfl hpre
  | cons p0 pt =>
    rw [List.cons_append]
    rw [show (p0 :: (pt ++ v)).length = (pt ++ v).length + 1 from rfl]
    rw [reScanAux_cons]
    rw [if_pos rfl]
    rw [show reMatchAt hd (p0 :: (pt ++ v)) = some (v, []) from by
      rw [← List.cons_append]; exact hm]
    show v :: reScanAux hd ((pt ++ v).length + 1) false [] = [v]
    rw [reScanAux_nil]

theorem sysvHead_daemon (v : List Char) :
    sysvHead ("DAEMON=".data ++ v) = some ("DAEMON=".data.length) := by
  unfold sysvHead
  rw [if_pos (isPrefixOf_append_self "DAEMON=".data v)]
  decide

theorem openrcHead_command (v : List Char) :
    openrcHead ("command=".data ++ v) = some ("command=".data.length) := by
  unfold openrcHead
  rw [if_pos (isPrefixOf_append_self "command=".data v)]
  decide

/-- **C6 (amended).** The systemd parser extracts exactly the claimed
tokens: a string is in its output iff it is the first
whitespace-delimited token (`tokenHead`) of the modifier-stripped,
stripped value of a recognized `Exec*=` line and begins with `/`
(soundness and completeness conjuncts).  The SysV and OpenRC parsers
deviate twofold: they always include the service-definition path
itself, and their capture `[^"\']+` CROSSES NEWLINES — on an unquoted
value it runs to the first quote character or end of file, so a single
`DAEMON=`/`command=` directive swallows every later line of the file
into one blob executable.  The blob conjuncts state this for an
arbitrary quote-free stripped remainder `v`, which may contain newlines
and further directive lines. -/
theorem c6_amended_parser_behaviour :
    (∀ (content x : String), x ∈ systemdParseServiceExecutables content →
      ∃ line ∈ splitChar '\n' content.data, ∃ v, sysdDirective line = some v ∧
        tokenHead (sysdModStrip (trimWs v)) = some x.data ∧
        "/".data.isPrefixOf x.data = true) ∧
    (∀ (content : String) (line v x : List Char),
      line ∈ splitChar '\n' content.data → sysdDirective line = some v →
      tokenHead (sysdModStrip (trimWs v)) = some x →
      "/".data.isPrefixOf x = true →
      (⟨x⟩ : String) ∈ systemdParseServiceExecutables content) ∧
    (∀ (p c : String), p ∈ sysvParseServiceExecutables p c) ∧
    (∀ (p : String) (v : List Char), v ≠ [] → trimWs v = v →
      "/".data.isPrefixOf v = true →
      (∀ ch ∈ v, ch ≠ '"' ∧ ch ≠ '\'') →
      sysvParseServiceExecutables p ⟨"DAEMON=".data ++ v⟩ =
        (p :: [(⟨v⟩ : String)]).dedup) ∧
    (∀ (p c : String), p ∈ openrcParseServiceExecutables p c) ∧
    (∀ (p : String) (v : List Char), v ≠ [] → trimWs v = v →
      "/".data.isPrefixOf v = true →
      (∀ ch ∈ v, ch ≠ '"' ∧ ch ≠ '\'') →
      openrcParseServiceExecutables p ⟨"command=".data ++ v⟩ =
        (p :: [(⟨v⟩ : String)]).dedup) := by
  refine ⟨?_, ?_, ?_, ?_, ?_, ?_⟩
  · intro content x hx
    unfold systemdParseServiceExecutables at hx
    rw [List.mem_dedup] at hx
    rcases List.mem_filterMap.mp hx with ⟨line, hmem, hline⟩
    cases hsd : sysdDirective line with
    | none => simp [hsd] at hline
    | some v =>
      simp only [hsd] at hline
      cases hw : pyWords (sysdModStrip (trimWs v)) with
      | nil => simp [hw] at hline
      | cons exe restw =>
        simp only [hw] at hline
        by_cases hp : "/".data.isPrefixOf exe
        · rw [if_pos hp] at hline
          injection hline with hline
          subst hline
          refine ⟨line, hmem, v, hsd, ?_, hp⟩
          rw [← pyWords_head, hw]
          rfl
        · rw [if_neg hp] at hline
          simp at hline
  · intro content line v x hmem hsd htok hp
    unfold systemdParseServiceExecutables
    rw [List.mem_dedup]
    refine List.mem_filterMap.mpr ⟨line, hmem, ?_⟩
    simp only [hsd]
    have hw : ∃ restw, pyWords (sysdModStrip (trimWs v)) = x :: restw := by
      have h1 := pyWords_head (sysdModStrip (trimWs v))
      rw [htok] at h1
      cases hpw : pyWords (sysdModStrip (trimWs v)) with
      | nil => rw [hpw] at h1; simp at h1
      | cons a r =>
        rw [hpw] at h1
        simp only [List.head?_cons, Option.some.injEq] at h1
        exact ⟨r, by rw [h1]⟩
    obtain ⟨restw, hw⟩ := hw
    simp only [hw]
    rw [if_pos hp]
  · intro p c
    unfold sysvParseServiceExecutables
    rw [List.mem_dedup]
    exact List.mem_cons_self _ _
  · intro p v hv htrim hpre hq
    have hq' : ∀ c ∈ v, isQuoteCh c = false := by
      intro c hc
      have h2 := hq c hc
      simp [isQuoteCh, h2.1, h2.2]
    have hblob : pyFindallCaptures sysvHead ("DAEMON=".data ++ v) = [v] :=
      scan_unquoted_blob sysvHead "DAEMON=".data v (sysvHead_daemon v)
        (by decide) hv hq'
    unfold sysvParseServiceExecutables
    rw [show (⟨"DAEMON=".data ++ v⟩ : String).data = "DAEMON=".data ++ v from rfl]
    rw [hblob]
    simp only [List.filterMap_cons, List.filterMap_nil, htrim]
    rw [if_pos hpre]
  · intro p c
    unfold openrcParseServiceExecutables
    rw [List.mem_dedup]
    exact List.mem_cons_self _ _
  · intro p v hv htrim hpre hq
    have hq' : ∀ c ∈ v, isQuoteCh c = false := by
      intro c hc
      have h2 := hq c hc
      simp [isQuoteCh, h2.1, h2.2]
    have hblob : pyFindallCaptures openrcHead ("command=".data ++ v) = [v] :=
      scan_unquoted_blob openrcHead "command=".data v (openrcHead_command v)
        (by decide) hv hq'
    unfold openrcParseServiceExecutables
    rw [show (⟨"command=".data ++ v⟩ : String).data = "command=".data ++ v from rfl]
    rw [hblob]
    simp only [List.filterMap_cons, List.filterMap_nil, htrim]
    rw [if_pos hpre]

/-- Witness for C6 (amended): all six conjuncts at concrete services —
in particular the blob conjuncts at the multi-line content
`DAEMON=/a\nCOMMAND=/b\nX=1`, whose `COMMAND=` line is swallowed into
the single returned capture. -/
theorem c6_witness :
    (∃ line ∈ splitChar '\n' "ExecStart=-/bin/x a".data, ∃ v,
      sysdDirective line = some v ∧
      tokenHead (sysdModStrip (trimWs v)) = some "/bin/x".data ∧
      "/".data.isPrefixOf "/bin/x".data = true) ∧
    ("/bin/x" : String) ∈ systemdParseServiceExecutables "ExecStart=-/bin/x a" ∧
    "/e/init.d/s1" ∈ sysvParseServiceExecutables "/e/init.d/s1" "case :" ∧
    sysvParseServiceExecutables "/e/init.d/s2"
        ⟨"DAEMON=".data ++ "/a\nCOMMAND=/b\nX=1".data⟩ =
      ("/e/init.d/s2" :: [("/a\nCOMMAND=/b\nX=1" : String)]).dedup ∧
    "/e/init.d/s3" ∈ openrcParseServiceExecutables "/e/init.d/s3" "y" ∧
    openrcParseServiceExecutables "/e/init.d/s4"
        ⟨"command=".data ++ "/x\ncommand=/y".data⟩ =
      ("/e/init.d/s4" :: [("/x\ncommand=/y" : String)]).dedup :=
  ⟨c6_amended_parser_behaviour.1 "ExecStart=-/bin/x a" "/bin/x" (by decide),
   c6_amended_parser_behaviour.2.1 "ExecStart=-/bin/x a"
     "ExecStart=-/bin/x a".data "-/bin/x a".data "/bin/x".data
     (by decide) (by decide) (by decide) (by decide),
   c6_amended_parser_behaviour.2.2.1 "/e/init.d/s1" "case :",
   c6_amended_parser_behaviour.2.2.2.1 "/e/init.d/s2" "/a\nCOMMAND=/b\nX=1".data
     (by decide) (by decide) (by decide) (by decide),
   c6_amended_parser_behaviour.2.2.2.2.1 "/e/init.d/s3" "y",
   c6_amended_parser_behaviour.2.2.2.2.2 "/e/init.d/s4" "/x\ncommand=/y".data
     (by decide) (by decide) (by decide) (by decide)⟩
